import Mathlib

/-!
Verification development for the notify-service repository.

We give a shallow embedding of the notification core of the service:
the template renderer (renderTemplateString in
internal/transport/http/notifications.go), the notification lifecycle
operations of the NotifyService (internal/fcm/fcm.go: PublishNotification,
ConvertToDraft, MarkNotificationsRead, MarkAllRead,
CreateAndDeliverSystemNotification and the TriggerSystemNotification
handler), and the SSE broker (internal/sse/broker.go).

Machine values that flow through the dynamic JSON bags are modelled by
the inductive type GoVal; UUIDs are modelled by natural numbers;
timestamps by integers (seconds). Fallible storage calls whose errors
the code inspects are modelled by explicit boolean outcome parameters;
Go channels are modelled as bounded queues with an explicit closed
flag, and a close of an already-closed channel — a Go runtime panic —
is modelled as the absence of a successor state (Option none).
-/

namespace NotifySvc

/-- A dynamic Go value as it appears after JSON unmarshalling: strings,
null, booleans, integers and arrays (arrays stand for the composite
values that hit the default branch of the renderer switch). -/
inductive GoVal where
| vStr : String → GoVal
| vNull : GoVal
| vBool : Bool → GoVal
| vInt : Int → GoVal
| vArr : List GoVal → GoVal

/-- Escaping used by Go encoding/json for string values: quote and
backslash (ASCII control characters and the HTML escapes are not
modelled; no theorem below depends on them). -/
def jsonEscape (s : String) : String :=
  String.join (s.toList.map (fun c =>
    if c = '\\' then "\\\\"
    else if c = '\"' then "\\\""
    else String.singleton c))

mutual

/-- Model of Go encoding/json Marshal restricted to the value forms of
GoVal. -/
def jsonEncode : GoVal → String
| .vStr s => "\"" ++ jsonEscape s ++ "\""
| .vNull => "null"
| .vBool b => if b then "true" else "false"
| .vInt n => toString n
| .vArr l => "[" ++ jsonEncodeList l ++ "]"

/-- Comma-separated encoding of a list of values. -/
def jsonEncodeList : List GoVal → String
| [] => ""
| [x] => jsonEncode x
| x :: y :: xs => jsonEncode x ++ "," ++ jsonEncodeList (y :: xs)

end

/-- The switch statement inside renderTemplateString
(internal/transport/http/notifications.go): strings pass through
verbatim, nil becomes the empty string, booleans and numbers go through
fmt Sprintf with the v verb, and everything else is JSON-encoded. -/
def stringifyGoVal : GoVal → String
| .vStr s => s
| .vNull => ""
| .vBool b => if b then "true" else "false"
| .vInt n => toString n
| .vArr l => jsonEncode (.vArr l)

/-- Modelled from the spec: the stringification the specification
describes for the renderer — string values verbatim, every non-string
value JSON-encoded before substitution. Used only to compare the
specification against the code. -/
def specStringifyGoVal : GoVal → String
| .vStr s => s
| v => jsonEncode v

/-- Model of the Postgres text-extraction operator on a JSON value (the
arrow-arrow operator): the text of the value, where a JSON null yields
SQL NULL (none). -/
def jsonTextValue : GoVal → Option String
| .vStr s => some s
| .vNull => none
| .vBool b => some (if b then "true" else "false")
| .vInt n => some (toString n)
| .vArr l => some (jsonEncode (.vArr l))

/-- Fuel-driven worker for replaceAll. With fuel at least the length of
the subject string and a non-empty pattern it scans left to right,
replacing each non-overlapping occurrence of the pattern and never
rescanning a replacement — the semantics of Go strings.ReplaceAll. The
structural fuel keeps the definition kernel-computable. -/
def replaceAllGo : Nat → List Char → List Char → List Char → List Char
| 0, s, _, _ => s
| _ + 1, [], _, _ => []
| fuel + 1, c :: rest, pat, rep =>
  if pat.isPrefixOf (c :: rest) then
    rep ++ replaceAllGo fuel ((c :: rest).drop pat.length) pat rep
  else
    c :: replaceAllGo fuel rest pat rep

/-- Model of Go strings.ReplaceAll for the non-empty patterns used by
the renderer (the renderer always passes a pattern of the shape
open-braces name close-braces, which is never empty). -/
def replaceAll (s pat rep : List Char) : List Char :=
  if pat = [] then s else replaceAllGo s.length s pat rep

/-- Core of renderTemplateString on character lists: fold over the
variable bag (an association list standing for the Go map, in some
iteration order), replacing all occurrences of each placeholder by the
stringified value. -/
def renderTemplateCore (t : List Char) (vars : List (String × GoVal)) : List Char :=
  vars.foldl
    (fun res kv =>
      replaceAll res ('\x7b' :: '\x7b' :: kv.1.toList ++ ['\x7d', '\x7d'])
        (stringifyGoVal kv.2).toList)
    t

/-- renderTemplateString (internal/transport/http/notifications.go):
replaces each placeholder, written as the key wrapped in double braces,
by the stringified variable value. -/
def renderTemplateString (template : String) (vars : List (String × GoVal)) : String :=
  (renderTemplateCore template.toList vars).asString

/-- Modelled from the spec: the renderer as the specification words it,
with every non-string value JSON-encoded before substitution. Used only
to compare the specification against the code. -/
def renderTemplateStringSpec (template : String) (vars : List (String × GoVal)) : String :=
  (vars.foldl
    (fun res kv =>
      replaceAll res ('\x7b' :: '\x7b' :: kv.1.toList ++ ['\x7d', '\x7d'])
        (specStringifyGoVal kv.2).toList)
    template.toList).asString

/-! ## Data model and lifecycle operations (internal/fcm/fcm.go) -/

/-- UUIDs are modelled as natural numbers; 0 plays the role of uuid.Nil. -/
abbrev UserId := Nat

abbrev NotifId := Nat

/-- Timestamps in seconds, as integers. -/
abbrev DBTime := Int

/-- Per-recipient delivery status (pkg/models/notifications.go). -/
inductive RecipientStatus where
| pending
| delivered
| read
| failed
deriving DecidableEq

/-- A notifications table row (pkg/models/notifications.go,
Notification): the per-campaign template. Fields not touched by the
verified operations (media, action links, creator bookkeeping beyond
the id) are elided. -/
structure Notification where
  id : NotifId
  creatorId : UserId
  heading : String
  title : String
  message : String
  metadata : List (String × GoVal)
  isDraft : Bool
  scheduledAt : Option DBTime
  deliveredAt : Option DBTime
  createdAt : DBTime

/-- A notification_recipients table row (pkg/models/notifications.go,
NotificationRecipient). -/
structure NotificationRecipient where
  id : Nat
  notificationId : NotifId
  userId : UserId
  status : RecipientStatus
  deliveredAt : Option DBTime
  readAt : Option DBTime
  createdAt : DBTime
  updatedAt : DBTime
deriving DecidableEq

/-- A system_notification_templates row (pkg/models/notifications.go):
the keyed stencil used by the trigger path. templateVars is kept
decoded as a list of required variable names. -/
structure SystemNotificationTemplate where
  eventKey : String
  name : String
  enabled : Bool
  heading : String
  title : String
  message : String
  templateVars : List String
deriving DecidableEq

/-- The persistent state the verified operations read and write: the
two notification tables, the synced user directory (ids of known
users), the system templates, and a fresh-id source standing for
gen_random_uuid. -/
structure DBState where
  notifications : List Notification
  recipients : List NotificationRecipient
  users : List UserId
  sysTemplates : List SystemNotificationTemplate
  nextId : Nat

/-- Association-list lookup by key (first match), standing for Go map
indexing of the variables bag. -/
def lookupVar : List (String × GoVal) → String → Option GoVal
| [], _ => none
| kv :: rest, k => if kv.1 = k then some kv.2 else lookupVar rest k

/-- Go map assignment on the variables bag: overwrite the key if
present, otherwise add it. -/
def setVar (vars : List (String × GoVal)) (k : String) (v : GoVal) : List (String × GoVal) :=
  if vars.any (fun kv => kv.1 == k) then
    vars.map (fun kv => if kv.1 = k then (k, v) else kv)
  else
    vars ++ [(k, v)]

/-- MarkNotificationsRead (internal/fcm/fcm.go): one transactional bulk
UPDATE setting status, read_at and updated_at on every recipient row of
the user whose notification id is listed — with no condition on the
current status. An UPDATE matching zero rows is not an error, so the
operation always succeeds. -/
def markNotificationsRead (st : DBState) (userId : UserId) (notificationIDs : List NotifId)
    (now : DBTime) : DBState :=
  { st with recipients := st.recipients.map (fun r =>
      if r.userId = userId ∧ r.notificationId ∈ notificationIDs then
        { r with status := .read, readAt := some now, updatedAt := now }
      else r) }

/-- MarkAllRead (internal/fcm/fcm.go): bulk UPDATE restricted to rows
currently in status delivered. -/
def markAllRead (st : DBState) (userId : UserId) (now : DBTime) : DBState :=
  { st with recipients := st.recipients.map (fun r =>
      if r.userId = userId ∧ r.status = .delivered then
        { r with status := .read, readAt := some now, updatedAt := now }
      else r) }

/-- The pending recipient rows built by PublishNotification, one per
target user, with fresh ids. -/
def mkPendingRecipients : Nat → NotifId → List UserId → DBTime → List NotificationRecipient
| _, _, [], _ => []
| base, nid, uid :: rest, now =>
  { id := base, notificationId := nid, userId := uid, status := .pending,
    deliveredAt := none, readAt := none, createdAt := now, updatedAt := now }
    :: mkPendingRecipients (base + 1) nid rest now

/-- PublishNotification (internal/fcm/fcm.go): requires the template to
exist as a draft; with an empty target list it falls back to every user
in the synced directory; then, in one transaction, bulk-inserts one
pending recipient per target and flips the template to non-draft with
delivered_at set to now. The first component is the error (none on
success); on error the state is returned unchanged. -/
def publishNotification (st : DBState) (id : NotifId) (targetUserIDs : List UserId)
    (now : DBTime) : Option String × DBState :=
  match st.notifications.find? (fun n => n.id == id && n.isDraft) with
  | none => (some "notification not found or not a draft", st)
  | some _ =>
    let targets := if targetUserIDs.isEmpty then st.users else targetUserIDs
    (none,
      { st with
        recipients := st.recipients ++ mkPendingRecipients st.nextId id targets now,
        notifications := st.notifications.map (fun n =>
          if n.id = id then { n with isDraft := false, deliveredAt := some now } else n),
        nextId := st.nextId + targets.length })

/-- ConvertToDraft (internal/fcm/fcm.go): inside one transaction, reset
the template (is_draft true, scheduled_at and delivered_at cleared) and
delete its recipients. The two storage calls can fail; their outcomes
are the two boolean parameters. A failed template update aborts the
transaction (error, state unchanged), but a failed recipient delete is
explicitly swallowed by the code (logged, the transaction still
commits), so the function still reports success. -/
def convertToDraft (st : DBState) (id : NotifId)
    (templateUpdateOk recipientDeleteOk : Bool) : Option String × DBState :=
  if templateUpdateOk then
    let st1 := { st with notifications := st.notifications.map (fun n =>
      if n.id = id then { n with isDraft := true, scheduledAt := none, deliveredAt := none }
      else n) }
    let st2 :=
      if recipientDeleteOk then
        { st1 with recipients := st1.recipients.filter (fun r => ¬ r.notificationId = id) }
      else st1
    (none, st2)
  else
    (some "storage error", st)

/-- The 24-hour dedup window, in seconds. -/
def dedupWindow : Int := 24 * 60 * 60

/-- The dedup existence check of TriggerSystemNotification
(internal/transport/http/notifications.go): count of recipient rows of
the user created inside the trailing window whose joined notification
carries the dedup key in its metadata. -/
def dedupCount (st : DBState) (userId : UserId) (key : String) (now : DBTime) : Nat :=
  (st.recipients.filter (fun r =>
    r.userId = userId ∧ r.createdAt > now - dedupWindow ∧
    st.notifications.any (fun n =>
      n.id == r.notificationId &&
      (match lookupVar n.metadata "dedup_key" with
       | some v => jsonTextValue v == some key
       | none => false)))).length

/-- Template fetch of the trigger path: first system template with the
event key that is enabled. -/
def findEnabledTemplate (st : DBState) (eventKey : String) : Option SystemNotificationTemplate :=
  st.sysTemplates.find? (fun t => t.eventKey == eventKey && t.enabled)

/-- The required-variable validation loop of the trigger path: the
first declared template variable missing from the supplied bag. -/
def firstMissingVar (required : List String) (vars : List (String × GoVal)) : Option String :=
  required.find? (fun v => !(vars.any (fun kv => kv.1 == v)))

/-- Outcome of the trigger endpoint, keyed to its HTTP responses:
notFound is the silent 204 for a missing or disabled key,
missingVariable the 400, deduped the 202 skip, success the 200 with the
created notification. -/
inductive TriggerResult where
| notFound
| missingVariable (name : String)
| deduped
| success (n : Notification)

/-- CreateAndDeliverSystemNotification (internal/fcm/fcm.go): creates
one non-draft notification with delivered_at set and creator uuid.Nil,
carrying the variables bag as metadata, plus one recipient row in
status delivered for the target user. -/
def createAndDeliverSystemNotification (st : DBState) (heading title message : String)
    (metadata : List (String × GoVal)) (userId : UserId) (now : DBTime) :
    TriggerResult × DBState :=
  let notif : Notification :=
    { id := st.nextId, creatorId := 0, heading := heading, title := title,
      message := message, metadata := metadata, isDraft := false,
      scheduledAt := none, deliveredAt := some now, createdAt := now }
  let recip : NotificationRecipient :=
    { id := st.nextId + 1, notificationId := notif.id, userId := userId,
      status := .delivered, deliveredAt := some now, readAt := none,
      createdAt := now, updatedAt := now }
  (.success notif,
    { st with
      notifications := st.notifications ++ [notif],
      recipients := st.recipients ++ [recip],
      nextId := st.nextId + 2 })

/-- TriggerSystemNotification (internal/transport/http/notifications.go):
fetch the enabled template, validate required variables, render the
display strings, consult the dedup index when a dedup key is supplied
(injecting the key into the metadata bag on a miss), and create the
notification plus its single recipient. -/
def triggerSystemNotification (st : DBState) (eventKey : String) (userId : UserId)
    (vars : List (String × GoVal)) (dedupKey : Option String) (now : DBTime) :
    TriggerResult × DBState :=
  match findEnabledTemplate st eventKey with
  | none => (.notFound, st)
  | some tpl =>
    match firstMissingVar tpl.templateVars vars with
    | some v => (.missingVariable v, st)
    | none =>
      let heading := renderTemplateString tpl.heading vars
      let title := renderTemplateString tpl.title vars
      let message := renderTemplateString tpl.message vars
      match dedupKey with
      | some k =>
        if dedupCount st userId k now > 0 then
          (.deduped, st)
        else
          createAndDeliverSystemNotification st heading title message
            (setVar vars "dedup_key" (.vStr k)) userId now
      | none =>
        createAndDeliverSystemNotification st heading title message vars userId now

/-- Bool test for the deduped outcome. -/
def TriggerResult.isDeduped : TriggerResult → Bool
| .deduped => true
| _ => false

/-- Bool test for the success outcome. -/
def TriggerResult.isSuccess : TriggerResult → Bool
| .success _ => true
| _ => false

/-- Fixture for the C1 witness: empty tables, one enabled system
template with event key ek requiring variable x. -/
def tplT : SystemNotificationTemplate :=
  { eventKey := "ek", name := "N", enabled := true,
    heading := "H \x7b\x7bx\x7d\x7d", title := "T", message := "M", templateVars := ["x"] }

def stT : DBState :=
  { notifications := [], recipients := [], users := [],
    sysTemplates := [tplT], nextId := 10 }

/-! ## Helper lemmas -/

theorem mkPendingRecipients_length (base : Nat) (nid : NotifId) (us : List UserId)
    (now : DBTime) : (mkPendingRecipients base nid us now).length = us.length := by
  induction us generalizing base with
  | nil => rfl
  | cons u rest ih => simp [mkPendingRecipients, ih]

theorem mkPendingRecipients_mem (base : Nat) (nid : NotifId) (us : List UserId)
    (now : DBTime) :
    ∀ r ∈ mkPendingRecipients base nid us now,
      r.status = RecipientStatus.pending ∧ r.notificationId = nid := by
  induction us generalizing base with
  | nil => intro r hr; cases hr
  | cons u rest ih =>
    intro r hr
    rcases List.mem_cons.mp hr with hr | hr
    · subst hr; exact ⟨rfl, rfl⟩
    · exact ih (base + 1) r hr

/-! ## C3 and C4: read-acknowledgement operations -/

/-- Fixture row: recipient in status pending for user 7, notification 5. -/
def rowPending : NotificationRecipient :=
  { id := 1, notificationId := 5, userId := 7, status := .pending,
    deliveredAt := none, readAt := none, createdAt := 0, updatedAt := 0 }

/-- Fixture: a single recipient row in status pending for user 7 and
notification 5. -/
def stPendingRow : DBState :=
  { notifications := [], users := [], sysTemplates := [], nextId := 0,
    recipients := [rowPending] }

/-- C3 counterexample: the claim says rows in status pending are never
moved to read, but MarkNotificationsRead performs an unconditional
update — on a state whose only recipient row is pending, the row comes
out in status read. -/
theorem markNotificationsRead_moves_pending_to_read_cex :
    stPendingRow.recipients.map (fun r => r.status) = [RecipientStatus.pending] ∧
    (markNotificationsRead stPendingRow 7 [5] 1).recipients.map (fun r => r.status)
      = [RecipientStatus.read] := by
  constructor <;> decide

/-- C3 (amended): MarkAllRead moves exactly the delivered rows of the
user to read and leaves every other row (pending, failed or already
read) untouched, raising no error; MarkNotificationsRead moves every
row of the user whose notification id is listed to read regardless of
its current status — pending and failed rows included — and leaves the
rest untouched, raising no error. -/
theorem mark_read_transitions_amended (st : DBState) (u : UserId) (ids : List NotifId)
    (t : DBTime) :
    (∀ r ∈ st.recipients, ¬(r.userId = u ∧ r.status = RecipientStatus.delivered) →
        r ∈ (markAllRead st u t).recipients) ∧
    (∀ r ∈ st.recipients, r.userId = u → r.status = RecipientStatus.delivered →
        { r with status := RecipientStatus.read, readAt := some t, updatedAt := t }
          ∈ (markAllRead st u t).recipients) ∧
    (∀ r ∈ st.recipients, r.userId = u → r.notificationId ∈ ids →
        { r with status := RecipientStatus.read, readAt := some t, updatedAt := t }
          ∈ (markNotificationsRead st u ids t).recipients) ∧
    (∀ r ∈ st.recipients, ¬(r.userId = u ∧ r.notificationId ∈ ids) →
        r ∈ (markNotificationsRead st u ids t).recipients) := by
  refine ⟨?_, ?_, ?_, ?_⟩
  · intro r hr h
    have hm := List.mem_map_of_mem (fun r =>
      if r.userId = u ∧ r.status = RecipientStatus.delivered then
        { r with status := RecipientStatus.read, readAt := some t, updatedAt := t }
      else r) hr
    simp only [if_neg h] at hm
    exact hm
  · intro r hr h1 h2
    have hm := List.mem_map_of_mem (fun r =>
      if r.userId = u ∧ r.status = RecipientStatus.delivered then
        { r with status := RecipientStatus.read, readAt := some t, updatedAt := t }
      else r) hr
    simp only [if_pos (show r.userId = u ∧ r.status = RecipientStatus.delivered from ⟨h1, h2⟩)] at hm
    exact hm
  · intro r hr h1 h2
    have hm := List.mem_map_of_mem (fun r =>
      if r.userId = u ∧ r.notificationId ∈ ids then
        { r with status := RecipientStatus.read, readAt := some t, updatedAt := t }
      else r) hr
    simp only [if_pos (show r.userId = u ∧ r.notificationId ∈ ids from ⟨h1, h2⟩)] at hm
    exact hm
  · intro r hr h
    have hm := List.mem_map_of_mem (fun r =>
      if r.userId = u ∧ r.notificationId ∈ ids then
        { r with status := RecipientStatus.read, readAt := some t, updatedAt := t }
      else r) hr
    simp only [if_neg h] at hm
    exact hm

/-- Witness for the amended C3 statement on the pending-row fixture:
MarkAllRead leaves the pending row alone, MarkNotificationsRead flips
it to read. -/
theorem mark_read_transitions_amended_witness :
    rowPending ∈ (markAllRead stPendingRow 7 9).recipients ∧
    { rowPending with status := RecipientStatus.read, readAt := some 9, updatedAt := 9 }
      ∈ (markNotificationsRead stPendingRow 7 [5] 9).recipients := by
  refine ⟨(mark_read_transitions_amended stPendingRow 7 [5] 9).1 _ ?_ ?_,
    (mark_read_transitions_amended stPendingRow 7 [5] 9).2.2.1 _ ?_ ?_ ?_⟩ <;> decide

/-- Fixture row: delivered recipient for user 7, notification 5. -/
def rowDelivered : NotificationRecipient :=
  { id := 1, notificationId := 5, userId := 7, status := .delivered,
    deliveredAt := some 0, readAt := none, createdAt := 0, updatedAt := 0 }

/-- Fixture: a single delivered recipient row for user 7,
notification 5. -/
def stDeliveredRow : DBState :=
  { notifications := [], users := [], sysTemplates := [], nextId := 0,
    recipients := [rowDelivered] }

/-- C4 counterexample: the claim says a second MarkRead call leaves all
rows exactly as after the first call, with the first read_at timestamp
preserved; but the bulk UPDATE is unconditional, so a second call at a
later time overwrites read_at — the recipient rows after the second
call differ from the rows after the first. -/
theorem markNotificationsRead_second_call_changes_state_cex :
    (markNotificationsRead (markNotificationsRead stDeliveredRow 7 [5] 1) 7 [5] 2).recipients
      ≠ (markNotificationsRead stDeliveredRow 7 [5] 1).recipients := by
  decide

/-- C4 (amended): a second MarkNotificationsRead call with the same ids
raises no error and is absorbed into a single call at the later
timestamp — statuses are unchanged (still read), but read_at and
updated_at are overwritten with the second call time; the state is
bitwise unchanged only when the two calls carry the same timestamp. -/
theorem markNotificationsRead_twice_eq_once (st : DBState) (u : UserId)
    (ids : List NotifId) (t1 t2 : DBTime) :
    markNotificationsRead (markNotificationsRead st u ids t1) u ids t2
      = markNotificationsRead st u ids t2 := by
  show ({ st with recipients := _ } : DBState) = { st with recipients := _ }
  simp only [markNotificationsRead, List.map_map]
  refine congrArg (fun l => { st with recipients := l }) ?_
  apply List.map_congr_left
  intro r _
  by_cases h : r.userId = u ∧ r.notificationId ∈ ids
  · simp only [Function.comp_apply, if_pos h, if_pos (show _ ∧ _ from h)]
  · simp only [Function.comp_apply, if_neg h, if_neg (show ¬(_ ∧ _) from h)]

/-! ## C5: ConvertToDraft -/

/-- Fixture template: published notification with id 1. -/
def notifPublished : Notification :=
  { id := 1, creatorId := 3, heading := "H", title := "T", message := "M",
    metadata := [], isDraft := false, scheduledAt := none, deliveredAt := some 2,
    createdAt := 0 }

/-- Fixture: one published template (id 1) with one recipient row. -/
def stPublished : DBState :=
  { notifications := [notifPublished],
    recipients := [{ rowDelivered with notificationId := 1 }],
    users := [], sysTemplates := [], nextId := 50 }

/-- C5 counterexample: the claim says a successful ConvertToDraft
leaves zero recipient rows for the template, but when the recipient
delete fails the code logs and continues, committing the transaction:
the call reports success (no error) while the recipient row survives. -/
theorem convertToDraft_swallowed_delete_failure_cex :
    (convertToDraft stPublished 1 true false).1 = none ∧
    (convertToDraft stPublished 1 true false).2.recipients.length = 1 := by
  constructor <;> decide

/-- C5 (amended): when the template update fails the whole transaction
aborts — error returned, state unchanged; when the template update
succeeds the call reports success and the template comes out with
is_draft true and scheduled_at and delivered_at cleared; the recipient
rows of the template are all gone exactly when the recipient delete
succeeded — a failed recipient delete is swallowed (success is still
reported) and leaves every recipient row in place, an observable
partial application. -/
theorem convertToDraft_effects_amended (st : DBState) (id : NotifId)
    (uOk rOk : Bool) :
    (uOk = false → convertToDraft st id uOk rOk = (some "storage error", st)) ∧
    (uOk = true →
      (convertToDraft st id uOk rOk).1 = none ∧
      (∀ n ∈ (convertToDraft st id uOk rOk).2.notifications, n.id = id →
        n.isDraft = true ∧ n.scheduledAt = none ∧ n.deliveredAt = none) ∧
      (rOk = true → ∀ r ∈ (convertToDraft st id uOk rOk).2.recipients,
        ¬ r.notificationId = id) ∧
      (rOk = false → (convertToDraft st id uOk rOk).2.recipients = st.recipients)) := by
  constructor
  · intro hu; subst hu; rfl
  · intro hu; subst hu
    refine ⟨by cases rOk <;> rfl, ?_, ?_, ?_⟩
    · intro n hn hid
      have hn2 : n ∈ st.notifications.map (fun n =>
          if n.id = id then { n with isDraft := true, scheduledAt := none, deliveredAt := none }
          else n) := by
        revert hn
        cases rOk <;> exact fun hn => hn
      rcases List.mem_map.mp hn2 with ⟨m, _, hm⟩
      by_cases hmid : m.id = id
      · rw [if_pos hmid] at hm
        rw [← hm]
        exact ⟨rfl, rfl, rfl⟩
      · rw [if_neg hmid] at hm
        rw [← hm] at hid
        exact absurd hid hmid
    · intro hr r hrm
      subst hr
      have := (List.mem_filter.mp hrm).2
      simpa using this
    · intro hr
      subst hr
      rfl

/-- Witness for the amended C5 statement: on the published fixture with
both storage calls succeeding, success is reported and no recipient of
template 1 remains. -/
theorem convertToDraft_effects_amended_witness :
    (convertToDraft stPublished 1 true true).1 = none ∧
    (∀ r ∈ (convertToDraft stPublished 1 true true).2.recipients,
      ¬ r.notificationId = 1) := by
  refine ⟨((convertToDraft_effects_amended stPublished 1 true true).2 rfl).1,
    ((convertToDraft_effects_amended stPublished 1 true true).2 rfl).2.2.1 rfl⟩

/-! ## C7 and C2: PublishNotification -/

/-- C7: publishing a second time without converting back to draft is
rejected — the first successful publish flips is_draft off, so the
draft-only fetch finds nothing, the call returns the
not-found-or-not-a-draft error, and the state (template row and
recipient rows) is exactly the state after the first publish. -/
theorem publishNotification_republish_rejected (st : DBState) (id : NotifId)
    (ts1 ts2 : List UserId) (t1 t2 : DBTime)
    (h : (publishNotification st id ts1 t1).1 = none) :
    publishNotification (publishNotification st id ts1 t1).2 id ts2 t2
      = (some "notification not found or not a draft",
         (publishNotification st id ts1 t1).2) := by
  rcases hf : st.notifications.find? (fun n => n.id == id && n.isDraft) with _ | tpl
  · exfalso
    rw [publishNotification, hf] at h
    exact Option.some_ne_none _ h
  · have hst1 : (publishNotification st id ts1 t1).2.notifications
        = st.notifications.map (fun n =>
            if n.id = id then { n with isDraft := false, deliveredAt := some t1 } else n) := by
      rw [publishNotification, hf]
    have hnone : (publishNotification st id ts1 t1).2.notifications.find?
        (fun n => n.id == id && n.isDraft) = none := by
      rw [hst1, List.find?_eq_none]
      intro n hn
      rcases List.mem_map.mp hn with ⟨m, _, hm⟩
      by_cases hmid : m.id = id
      · rw [if_pos hmid] at hm
        rw [← hm]
        simp
      · rw [if_neg hmid] at hm
        rw [← hm]
        simp [hmid]
    rw [publishNotification, hnone]

/-- Fixture: one draft template (id 1), two directory users. -/
def notifDraft : Notification :=
  { id := 1, creatorId := 3, heading := "H", title := "T", message := "M",
    metadata := [], isDraft := true, scheduledAt := none, deliveredAt := none,
    createdAt := 0 }

def stDraft : DBState :=
  { notifications := [notifDraft], recipients := [],
    users := [21, 22], sysTemplates := [], nextId := 100 }

/-- Witness for C7 on the draft fixture: publish once to user 21, then
a second publish is rejected with the state unchanged. -/
theorem publishNotification_republish_rejected_witness :
    publishNotification (publishNotification stDraft 1 [21] 5).2 1 [22] 6
      = (some "notification not found or not a draft",
         (publishNotification stDraft 1 [21] 5).2) := by
  exact publishNotification_republish_rejected stDraft 1 [21] [22] 5 6 (by decide)

/-- C2: a successful publish appends exactly one pending recipient row
per target user — falling back to the whole synced directory when the
target list is empty — and flips the template to non-draft with
delivered_at set to the publish time. -/
theorem publishNotification_creates_pending_recipients (st : DBState) (id : NotifId)
    (targets : List UserId) (now : DBTime) (tpl : Notification)
    (h : st.notifications.find? (fun n => n.id == id && n.isDraft) = some tpl) :
    ∃ created,
      (publishNotification st id targets now).1 = none ∧
      (publishNotification st id targets now).2.recipients = st.recipients ++ created ∧
      created.length = (if targets.isEmpty then st.users.length else targets.length) ∧
      (∀ r ∈ created, r.status = RecipientStatus.pending ∧ r.notificationId = id) ∧
      (∀ n ∈ (publishNotification st id targets now).2.notifications,
        n.id = id → n.isDraft = false ∧ n.deliveredAt = some now) := by
  refine ⟨mkPendingRecipients st.nextId id (if targets.isEmpty then st.users else targets) now,
    ?_, ?_, ?_, ?_, ?_⟩
  · rw [publishNotification, h]
  · rw [publishNotification, h]
  · rw [mkPendingRecipients_length]
    by_cases ht : targets.isEmpty <;> simp [ht]
  · exact mkPendingRecipients_mem _ _ _ _
  · intro n hn hid
    have hn2 : n ∈ st.notifications.map (fun n =>
        if n.id = id then { n with isDraft := false, deliveredAt := some now } else n) := by
      rw [publishNotification, h] at hn
      exact hn
    rcases List.mem_map.mp hn2 with ⟨m, _, hm⟩
    by_cases hmid : m.id = id
    · rw [if_pos hmid] at hm
      rw [← hm]
      exact ⟨rfl, rfl⟩
    · rw [if_neg hmid] at hm
      rw [← hm] at hid
      exact absurd hid hmid

/-- Witness for C2 on the draft fixture, publishing with an empty
target list: both directory users get a pending row. -/
theorem publishNotification_creates_pending_recipients_witness :
    ∃ created,
      (publishNotification stDraft 1 [] 5).1 = none ∧
      (publishNotification stDraft 1 [] 5).2.recipients = stDraft.recipients ++ created ∧
      created.length = (if ([] : List UserId).isEmpty then stDraft.users.length else ([] : List UserId).length) ∧
      (∀ r ∈ created, r.status = RecipientStatus.pending ∧ r.notificationId = 1) ∧
      (∀ n ∈ (publishNotification stDraft 1 [] 5).2.notifications,
        n.id = 1 → n.isDraft = false ∧ n.deliveredAt = some 5) := by
  exact publishNotification_creates_pending_recipients stDraft 1 [] 5 notifDraft rfl

/-! ## C1: trigger deduplication -/

theorem lookupVar_overwrite (vars : List (String × GoVal)) (k : String) (v : GoVal)
    (h : vars.any (fun kv => kv.1 == k) = true) :
    lookupVar (vars.map (fun kv => if kv.1 = k then (k, v) else kv)) k = some v := by
  induction vars with
  | nil => simp at h
  | cons kv rest ih =>
    by_cases hk : kv.1 = k
    · simp [lookupVar, hk]
    · have h2 : rest.any (fun kv => kv.1 == k) = true := by
        simp only [List.any_cons, Bool.or_eq_true, beq_iff_eq] at h
        rcases h with h | h
        · exact absurd h hk
        · exact List.any_eq_true.mpr (by simpa using h)
      simp [lookupVar, hk, ih h2]

theorem lookupVar_append_absent (vars : List (String × GoVal)) (k : String) (v : GoVal)
    (h : ∀ kv ∈ vars, ¬(kv.1 = k)) :
    lookupVar (vars ++ [(k, v)]) k = some v := by
  induction vars with
  | nil => simp [lookupVar]
  | cons kv rest ih =>
    have hk := h kv (List.mem_cons_self _ _)
    rw [List.cons_append, lookupVar, if_neg hk]
    exact ih (fun kv2 hm => h kv2 (List.mem_cons_of_mem _ hm))

/-- Go map assignment then indexing: after setting the dedup key the
bag yields it back. -/
theorem lookupVar_setVar (vars : List (String × GoVal)) (k : String) (v : GoVal) :
    lookupVar (setVar vars k v) k = some v := by
  rw [setVar]
  by_cases h : vars.any (fun kv => kv.1 == k) = true
  · rw [if_pos h]
    exact lookupVar_overwrite vars k v h
  · rw [if_neg (by simpa using h)]
    refine lookupVar_append_absent vars k v ?_
    intro kv hm hk
    exact h (List.any_eq_true.mpr ⟨kv, hm, by simpa using hk⟩)

/-- Normal form of a trigger call that passes template lookup, variable
validation and the dedup check. -/
theorem trigger_first_call (st : DBState) (ek : String) (u : UserId)
    (vars : List (String × GoVal)) (k : String) (t : DBTime)
    (tpl : SystemNotificationTemplate)
    (h1 : findEnabledTemplate st ek = some tpl)
    (hv : firstMissingVar tpl.templateVars vars = none)
    (h0 : dedupCount st u k t = 0) :
    triggerSystemNotification st ek u vars (some k) t
      = createAndDeliverSystemNotification st (renderTemplateString tpl.heading vars)
          (renderTemplateString tpl.title vars) (renderTemplateString tpl.message vars)
          (setVar vars "dedup_key" (.vStr k)) u t := by
  simp [triggerSystemNotification, h1, hv, h0]

/-- C1: two trigger calls for the same user carrying the same dedup
key, the second within 24 hours of the first, each finding an enabled
template for its event key and supplying all required variables, and
starting from a state with no live dedup entry for that pair: the first
call succeeds and creates exactly one notification template row and one
recipient row, and the second call returns the deduped outcome with the
state untouched — so the pair creates exactly one row in each table in
total. -/
theorem trigger_system_event_dedup_pair (st : DBState) (ek1 ek2 : String) (u : UserId)
    (vars1 vars2 : List (String × GoVal)) (k : String) (t1 t2 : DBTime)
    (tpl1 tpl2 : SystemNotificationTemplate)
    (h1 : findEnabledTemplate st ek1 = some tpl1)
    (hv1 : firstMissingVar tpl1.templateVars vars1 = none)
    (h0 : dedupCount st u k t1 = 0)
    (h2 : findEnabledTemplate (triggerSystemNotification st ek1 u vars1 (some k) t1).2 ek2
            = some tpl2)
    (hv2 : firstMissingVar tpl2.templateVars vars2 = none)
    (hwin : t2 - dedupWindow < t1) :
    (triggerSystemNotification st ek1 u vars1 (some k) t1).1.isSuccess = true ∧
    (triggerSystemNotification st ek1 u vars1 (some k) t1).2.notifications.length
      = st.notifications.length + 1 ∧
    (triggerSystemNotification st ek1 u vars1 (some k) t1).2.recipients.length
      = st.recipients.length + 1 ∧
    (triggerSystemNotification (triggerSystemNotification st ek1 u vars1 (some k) t1).2
        ek2 u vars2 (some k) t2).1.isDeduped = true ∧
    (triggerSystemNotification (triggerSystemNotification st ek1 u vars1 (some k) t1).2
        ek2 u vars2 (some k) t2).2
      = (triggerSystemNotification st ek1 u vars1 (some k) t1).2 := by
  have hfirst := trigger_first_call st ek1 u vars1 k t1 tpl1 h1 hv1 h0
  have hpos : 0 < dedupCount (triggerSystemNotification st ek1 u vars1 (some k) t1).2 u k t2 := by
    rw [hfirst]
    apply List.length_pos_of_mem
    apply List.mem_filter.mpr
    constructor
    · exact List.mem_append_right _ (List.mem_singleton_self _)
    · simp only [decide_eq_true_eq]
      refine ⟨by trivial, hwin, ?_⟩
      apply List.any_eq_true.mpr
      refine ⟨_, List.mem_append_right _ (List.mem_singleton_self _), ?_⟩
      simp [createAndDeliverSystemNotification, lookupVar_setVar, jsonTextValue]
  have hsucc : (triggerSystemNotification st ek1 u vars1 (some k) t1).1.isSuccess = true := by
    rw [hfirst]; rfl
  have hlen1 : (triggerSystemNotification st ek1 u vars1 (some k) t1).2.notifications.length
      = st.notifications.length + 1 := by
    rw [hfirst]; simp [createAndDeliverSystemNotification]
  have hlen2 : (triggerSystemNotification st ek1 u vars1 (some k) t1).2.recipients.length
      = st.recipients.length + 1 := by
    rw [hfirst]; simp [createAndDeliverSystemNotification]
  have hsecond : triggerSystemNotification (triggerSystemNotification st ek1 u vars1 (some k) t1).2
      ek2 u vars2 (some k) t2
      = (TriggerResult.deduped, (triggerSystemNotification st ek1 u vars1 (some k) t1).2) := by
    generalize hg : (triggerSystemNotification st ek1 u vars1 (some k) t1).2 = st1 at h2 hpos
    simp [triggerSystemNotification, h2, hv2, hpos]
  refine ⟨hsucc, hlen1, hlen2, ?_, ?_⟩
  · rw [hsecond]; rfl
  · rw [hsecond]

/-- Witness for C1: concrete state with one enabled template, two
calls with dedup key dk at times 0 and 100. -/
theorem trigger_system_event_dedup_pair_witness :
    (triggerSystemNotification stT "ek" 7 [("x", .vStr "1")] (some "dk") 0).1.isSuccess = true ∧
    (triggerSystemNotification stT "ek" 7 [("x", .vStr "1")] (some "dk") 0).2.notifications.length
      = stT.notifications.length + 1 ∧
    (triggerSystemNotification stT "ek" 7 [("x", .vStr "1")] (some "dk") 0).2.recipients.length
      = stT.recipients.length + 1 ∧
    (triggerSystemNotification (triggerSystemNotification stT "ek" 7 [("x", .vStr "1")] (some "dk") 0).2
        "ek" 7 [("x", .vStr "1")] (some "dk") 100).1.isDeduped = true ∧
    (triggerSystemNotification (triggerSystemNotification stT "ek" 7 [("x", .vStr "1")] (some "dk") 0).2
        "ek" 7 [("x", .vStr "1")] (some "dk") 100).2
      = (triggerSystemNotification stT "ek" 7 [("x", .vStr "1")] (some "dk") 0).2 := by
  exact trigger_system_event_dedup_pair stT "ek" "ek" 7 [("x", .vStr "1")] [("x", .vStr "1")]
    "dk" 0 100 tplT tplT (by decide) (by decide) (by decide) (by decide) (by decide) (by decide)

/-! ## SSE broker (internal/sse/broker.go) -/

abbrev QueueId := Nat

/-- An event handed to Broadcast: type tag, dynamic payload, target
user id (the Event struct of broker.go). -/
structure SSEEvent where
  type : String
  data : GoVal
  userId : UserId

/-- The event copy actually sent into a client channel: Broadcast
marshals the payload once and forwards the raw JSON text. -/
structure QueuedEvent where
  type : String
  dataRaw : String
  userId : UserId
deriving DecidableEq

/-- A Go channel of events: bounded buffer plus closed flag. -/
structure Queue where
  cap : Nat
  buf : List QueuedEvent
  closed : Bool
deriving DecidableEq

/-- Broker state (broker.go): the per-user registry of client channels
(association list from user id to the inner set of channel ids, kept in
registration order) together with the heap of every channel created so
far, addressed by id. -/
structure Broker where
  clients : List (UserId × List QueueId)
  queues : List (QueueId × Queue)
deriving DecidableEq

/-- NewBroker: empty registry. -/
def newBroker : Broker := { clients := [], queues := [] }

/-- Channel creation (make chan with a capacity), as done by
StreamNotifications before registering. -/
def makeChan (b : Broker) (q : QueueId) (capacity : Nat) : Broker :=
  { b with queues := b.queues ++ [(q, { cap := capacity, buf := [], closed := false })] }

/-- Register (broker.go): create the inner map when absent, then add
the channel to it. -/
def register (b : Broker) (u : UserId) (q : QueueId) : Broker :=
  match b.clients.lookup u with
  | some _ =>
    { b with clients := b.clients.map (fun e =>
        if e.1 = u then (e.1, if q ∈ e.2 then e.2 else e.2 ++ [q]) else e) }
  | none => { b with clients := b.clients ++ [(u, [q])] }

/-- Closing a channel. Closing an already-closed or nil channel is a Go
runtime panic, modelled as none. -/
def closeChan (b : Broker) (q : QueueId) : Option Broker :=
  match b.queues.lookup q with
  | some qu =>
    if qu.closed then none
    else some { b with queues := b.queues.map (fun e =>
      if e.1 = q then (e.1, { qu with closed := true }) else e) }
  | none => none

/-- Unregister (broker.go): when the user has an inner map, remove the
channel from it, close the channel unconditionally, and drop the user
entry once its inner map is empty. When the user has no entry, nothing
happens and nothing is closed. -/
def unregister (b : Broker) (u : UserId) (q : QueueId) : Option Broker :=
  match b.clients.lookup u with
  | some qs =>
    let qs2 := qs.erase q
    let clients2 :=
      if qs2.isEmpty then b.clients.filter (fun e => ¬ e.1 = u)
      else b.clients.map (fun e => if e.1 = u then (e.1, qs2) else e)
    closeChan { b with clients := clients2 } q
  | none => some b

/-- The marshalled event copy Broadcast builds once per call. -/
def eventCopy (e : SSEEvent) : QueuedEvent :=
  { type := e.type, dataRaw := jsonEncode e.data, userId := e.userId }

/-- One non-blocking select send with a default branch: skip when the
channel is nil (absent) or full, deliver when there is room; sending on
a closed channel is a Go runtime panic (none). -/
def sendToQueue (b : Broker) (q : QueueId) (ev : QueuedEvent) : Option Broker :=
  match b.queues.lookup q with
  | none => some b
  | some qu =>
    if qu.closed then none
    else if qu.buf.length < qu.cap then
      some { b with queues := b.queues.map (fun e =>
        if e.1 = q then (e.1, { qu with buf := qu.buf ++ [ev] }) else e) }
    else some b

/-- The send loop of Broadcast over the channels of one user. -/
def sendAll (b : Broker) (qs : List QueueId) (ev : QueuedEvent) : Option Broker :=
  match qs with
  | [] => some b
  | q :: rest =>
    match sendToQueue b q ev with
    | none => none
    | some b2 => sendAll b2 rest ev

/-- Broadcast (broker.go): with no registered channels for the user it
does nothing; otherwise it marshals the payload once and attempts a
non-blocking send on every channel registered under that user id. -/
def broadcast (b : Broker) (e : SSEEvent) : Option Broker :=
  match b.clients.lookup e.userId with
  | none => some b
  | some qs => sendAll b qs (eventCopy e)

/-- The outer loop of BroadcastToAll over all user entries. -/
def broadcastToAllGo (b : Broker) (entries : List (UserId × List QueueId))
    (ty : String) (data : GoVal) : Option Broker :=
  match entries with
  | [] => some b
  | (u, qs) :: rest =>
    match sendAll b qs { type := ty, dataRaw := jsonEncode data, userId := u } with
    | none => none
    | some b2 => broadcastToAllGo b2 rest ty data

/-- BroadcastToAll (broker.go): the same non-blocking send across every
registered user. -/
def broadcastToAll (b : Broker) (ty : String) (data : GoVal) : Option Broker :=
  broadcastToAllGo b b.clients ty data

/-- GetClientCount (broker.go). -/
def getClientCount (b : Broker) (u : UserId) : Nat :=
  match b.clients.lookup u with
  | some qs => qs.length
  | none => 0

/-- The broker operations a trace can perform: connect stands for the
StreamNotifications prologue (make a channel of capacity 10, then
Register). -/
inductive BrokerOp where
| connect (u : UserId) (q : QueueId)
| unregister (u : UserId) (q : QueueId)
| broadcast (e : SSEEvent)
| broadcastToAll (ty : String) (data : GoVal)

/-- One step of a broker trace; none marks a Go panic (double close) or
an ill-formed trace (reusing a channel id for a fresh channel). -/
def brokerStep (b : Broker) : BrokerOp → Option Broker
| .connect u q =>
  if (b.queues.lookup q).isSome then none
  else some (register (makeChan b q 10) u q)
| .unregister u q => unregister b u q
| .broadcast e => broadcast b e
| .broadcastToAll ty d => broadcastToAll b ty d

/-- Run a trace from a given broker. -/
def runBrokerOpsFrom (b : Broker) (ops : List BrokerOp) : Option Broker :=
  ops.foldl (fun ob op => ob.bind (fun bb => brokerStep bb op)) (some b)

/-- Run a trace from a fresh broker. -/
def runBrokerOps (ops : List BrokerOp) : Option Broker :=
  runBrokerOpsFrom newBroker ops

/-- The deferred cleanup of StreamNotifications
(internal/transport/http/notifications.go): broker.Unregister — which
itself closes the channel — followed by a direct close of the same
channel. -/
def streamCleanup (b : Broker) (u : UserId) (q : QueueId) : Option Broker :=
  (unregister b u q).bind (fun b2 => closeChan b2 q)

/-! ## C6: double close on unregister -/

/-- C6 (code bug): the claim — and the spec — require closing an
already-closed queue to be guarded against. The code does not guard:
(1) the deferred cleanup in StreamNotifications calls broker.Unregister,
which closes the channel, and then closes the same channel again, a
close-of-closed-channel panic on every normal disconnect; (2) a second
Unregister of the same (user, queue) while the user still has another
registered queue re-enters the close branch (the inner-map delete is a
no-op but close is called unconditionally) and panics as well. Both
runs evaluate to none (panic). -/
theorem unregister_double_close_bug :
    (streamCleanup (register (makeChan newBroker 1 10) 7 1) 7 1).isNone = true ∧
    ((unregister (register (register (makeChan (makeChan newBroker 1 10) 2 10) 7 1) 7 2) 7 1).bind
      (fun b => unregister b 7 1)).isNone = true := by
  constructor <;> rfl

/-! ## C8: broadcast semantics -/

theorem lookup_map_value_ne {β : Type} (l : List (Nat × β)) (q q2 : Nat) (w : β)
    (hne : ¬ q2 = q) :
    (l.map (fun e => if e.1 = q then (e.1, w) else e)).lookup q2 = l.lookup q2 := by
  induction l with
  | nil => rfl
  | cons e rest ih =>
    obtain ⟨k, v⟩ := e
    cases hq2k : (q2 == k) with
    | true =>
      have hk2 : q2 = k := by simpa using hq2k
      have hk : ¬ k = q := fun h => hne (by rw [hk2, h])
      simp only [List.map_cons, if_neg hk]
      rw [List.lookup_cons, List.lookup_cons, hq2k]
    | false =>
      by_cases hk : k = q
      · simp only [List.map_cons, if_pos hk]
        rw [List.lookup_cons, List.lookup_cons, hq2k]
        exact ih
      · simp only [List.map_cons, if_neg hk]
        rw [List.lookup_cons, List.lookup_cons, hq2k]
        exact ih

theorem lookup_map_value_self {β : Type} (l : List (Nat × β)) (q : Nat) (w : β)
    (qu : β) (h : l.lookup q = some qu) :
    (l.map (fun e => if e.1 = q then (e.1, w) else e)).lookup q = some w := by
  induction l with
  | nil => cases h
  | cons e rest ih =>
    obtain ⟨k, v⟩ := e
    cases hqk : (q == k) with
    | true =>
      have hk : k = q := by
        have : q = k := by simpa using hqk
        exact this.symm
      simp only [List.map_cons, if_pos hk]
      rw [List.lookup_cons, hqk]
    | false =>
      rw [List.lookup_cons, hqk] at h
      by_cases hk : k = q
      · rw [hk] at hqk
        simp at hqk
      · simp only [List.map_cons, if_neg hk]
        rw [List.lookup_cons, hqk]
        exact ih h

theorem sendToQueue_open (b : Broker) (q : QueueId) (ev : QueuedEvent) (qu : Queue)
    (hq : b.queues.lookup q = some qu) (hop : qu.closed = false) :
    ∃ b2, sendToQueue b q ev = some b2 ∧ b2.clients = b.clients ∧
      (∀ q2, ¬ q2 = q → b2.queues.lookup q2 = b.queues.lookup q2) ∧
      b2.queues.lookup q
        = some (if qu.buf.length < qu.cap then { qu with buf := qu.buf ++ [ev] } else qu) := by
  by_cases hr : qu.buf.length < qu.cap
  · refine ⟨{ b with queues := b.queues.map (fun e =>
      if e.1 = q then (e.1, { qu with buf := qu.buf ++ [ev] }) else e) }, ?_, rfl, ?_, ?_⟩
    · simp [sendToQueue, hq, hop, hr]
    · intro q2 hq2
      exact lookup_map_value_ne b.queues q q2 _ hq2
    · rw [if_pos hr]
      exact lookup_map_value_self b.queues q _ qu hq
  · refine ⟨b, ?_, rfl, fun q2 _ => rfl, ?_⟩
    · simp [sendToQueue, hq, hop, hr]
    · rw [if_neg hr]
      exact hq

theorem sendAll_spec (qs : List QueueId) (b : Broker) (ev : QueuedEvent)
    (hnd : qs.Nodup)
    (hopen : ∀ q ∈ qs, ∃ qu, b.queues.lookup q = some qu ∧ qu.closed = false) :
    ∃ b2, sendAll b qs ev = some b2 ∧ b2.clients = b.clients ∧
      (∀ q2, q2 ∉ qs → b2.queues.lookup q2 = b.queues.lookup q2) ∧
      (∀ q ∈ qs, ∀ qu, b.queues.lookup q = some qu →
        b2.queues.lookup q
          = some (if qu.buf.length < qu.cap then { qu with buf := qu.buf ++ [ev] } else qu)) := by
  induction qs generalizing b with
  | nil => exact ⟨b, rfl, rfl, fun _ _ => rfl, fun q hq => absurd hq (List.not_mem_nil q)⟩
  | cons q rest ih =>
    obtain ⟨qu, hq, hop⟩ := hopen q (List.mem_cons_self q rest)
    obtain ⟨b1, hs1, hc1, hne1, hself1⟩ := sendToQueue_open b q ev qu hq hop
    have hq_notin : q ∉ rest := (List.nodup_cons.mp hnd).1
    have hnd2 : rest.Nodup := (List.nodup_cons.mp hnd).2
    have hopen2 : ∀ q2 ∈ rest, ∃ qu2, b1.queues.lookup q2 = some qu2 ∧ qu2.closed = false := by
      intro q2 hq2
      obtain ⟨qu2, hl, ho⟩ := hopen q2 (List.mem_cons_of_mem _ hq2)
      refine ⟨qu2, ?_, ho⟩
      rw [hne1 q2 (fun h => hq_notin (h ▸ hq2)), hl]
    obtain ⟨b2, hs2, hc2, hne2, hself2⟩ := ih b1 hnd2 hopen2
    refine ⟨b2, ?_, hc2.trans hc1, ?_, ?_⟩
    · rw [sendAll, hs1]
      exact hs2
    · intro q2 hq2
      have hq2r : q2 ∉ rest := fun h => hq2 (List.mem_cons_of_mem _ h)
      have hq2q : ¬ q2 = q := fun h => hq2 (h ▸ List.mem_cons_self q rest)
      rw [hne2 q2 hq2r, hne1 q2 hq2q]
    · intro q3 hq3 qu3 hl3
      rcases List.mem_cons.mp hq3 with hq3 | hq3
      · subst hq3
        have : qu3 = qu := by
          rw [hq] at hl3
          injection hl3.symm
        subst this
        rw [hne2 q3 hq_notin]
        exact hself1
      · have hne13 : ¬ q3 = q := fun h => hq_notin (h ▸ hq3)
        refine hself2 q3 hq3 qu3 ?_
        rw [hne1 q3 hne13]
        exact hl3

/-- C8: Broadcast attempts one non-blocking enqueue on every queue
registered under the target user id and touches nothing else. With
zero registered queues it is a no-op that cannot fail; with registered
queues (all open, as the register/unregister discipline guarantees) it
succeeds, the registry is unchanged, every queue not belonging to the
user keeps its exact state, a full queue (buffer at capacity) drops the
event — no retry, no growth beyond the bound — and a queue with room
receives exactly one copy of the marshalled event at the tail. -/
theorem broadcast_drop_semantics (b : Broker) (e : SSEEvent) :
    (b.clients.lookup e.userId = none → broadcast b e = some b) ∧
    (∀ qs, b.clients.lookup e.userId = some qs → qs.Nodup →
      (∀ q ∈ qs, ∃ qu, b.queues.lookup q = some qu ∧ qu.closed = false) →
      ∃ b2, broadcast b e = some b2 ∧
        b2.clients = b.clients ∧
        (∀ q2, q2 ∉ qs → b2.queues.lookup q2 = b.queues.lookup q2) ∧
        (∀ q ∈ qs, ∀ qu, b.queues.lookup q = some qu →
          (qu.buf.length < qu.cap →
            b2.queues.lookup q = some { qu with buf := qu.buf ++ [eventCopy e] }) ∧
          (¬ qu.buf.length < qu.cap → b2.queues.lookup q = some qu))) := by
  constructor
  · intro h
    rw [broadcast, h]
  · intro qs hqs hnd hopen
    obtain ⟨b2, hs, hc, hne, hself⟩ := sendAll_spec qs b (eventCopy e) hnd hopen
    refine ⟨b2, ?_, hc, hne, ?_⟩
    · rw [broadcast, hqs]
      exact hs
    · intro q hq qu hl
      constructor
      · intro hr
        rw [hself q hq qu hl, if_pos hr]
      · intro hr
        rw [hself q hq qu hl, if_neg hr]

/-- Fixture broker for the C8 witness: user 1 has one full queue
(capacity 2, two buffered events), user 2 has one empty queue. -/
def bC8 : Broker :=
  { clients := [(1, [11]), (2, [22])],
    queues := [(11, { cap := 2, closed := false,
                      buf := [{ type := "a", dataRaw := "1", userId := 1 },
                              { type := "b", dataRaw := "2", userId := 1 }] }),
               (22, { cap := 2, buf := [], closed := false })] }

/-- Witness for C8: broadcasting to user 1 whose only queue is full
succeeds, drops the event for that queue (buffer unchanged) and leaves
the other user queue and the registry unchanged. -/
theorem broadcast_drop_semantics_witness :
    ∃ b2, broadcast bC8 { type := "n", data := .vStr "x", userId := 1 } = some b2 ∧
      b2.clients = bC8.clients ∧
      (∀ q2, q2 ∉ [11] → b2.queues.lookup q2 = bC8.queues.lookup q2) ∧
      (∀ q ∈ [11], ∀ qu, bC8.queues.lookup q = some qu →
        (qu.buf.length < qu.cap →
          b2.queues.lookup q = some { qu with
            buf := qu.buf ++ [eventCopy { type := "n", data := .vStr "x", userId := 1 }] }) ∧
        (¬ qu.buf.length < qu.cap → b2.queues.lookup q = some qu)) := by
  refine (broadcast_drop_semantics bC8 { type := "n", data := .vStr "x", userId := 1 }).2
    [11] (by decide) (by decide) ?_
  intro q hq
  refine ⟨{ cap := 2, closed := false,
            buf := [{ type := "a", dataRaw := "1", userId := 1 },
                    { type := "b", dataRaw := "2", userId := 1 }] }, ?_, rfl⟩
  have : q = 11 := by
    rcases List.mem_singleton.mp hq with h
    exact h
  subst this
  rfl

/-! ## C10: broker registry invariant -/

/-- Every user entry of the registry has at least one registered
channel. -/
def clientsNonempty (b : Broker) : Prop := ∀ e ∈ b.clients, e.2 ≠ []

theorem lookup_mem {β : Type} (l : List (Nat × β)) (a : Nat) (v : β)
    (h : l.lookup a = some v) : (a, v) ∈ l := by
  induction l with
  | nil => exact absurd h (by simp)
  | cons e rest ih =>
    obtain ⟨k, w⟩ := e
    rw [List.lookup_cons] at h
    cases hak : (a == k) with
    | true =>
      simp only [hak] at h
      have ha : a = k := by simpa using hak
      injection h with h
      rw [ha, h]
      exact List.mem_cons_self _ _
    | false =>
      simp only [hak] at h
      exact List.mem_cons_of_mem _ (ih h)

theorem closeChan_clients (b : Broker) (q : QueueId) (b2 : Broker)
    (h : closeChan b q = some b2) : b2.clients = b.clients := by
  rcases hq : b.queues.lookup q with _ | qu
  · simp only [closeChan, hq] at h
    exact absurd h (by simp)
  · simp only [closeChan, hq] at h
    by_cases hc : qu.closed
    · rw [if_pos hc] at h
      cases h
    · rw [if_neg hc] at h
      injection h with h
      rw [← h]

theorem sendToQueue_clients (b : Broker) (q : QueueId) (ev : QueuedEvent) (b2 : Broker)
    (h : sendToQueue b q ev = some b2) : b2.clients = b.clients := by
  rcases hq : b.queues.lookup q with _ | qu
  · simp only [sendToQueue, hq] at h
    injection h with h
    rw [← h]
  · simp only [sendToQueue, hq] at h
    by_cases hc : qu.closed
    · rw [if_pos hc] at h
      cases h
    · rw [if_neg hc] at h
      by_cases hr : qu.buf.length < qu.cap
      · rw [if_pos hr] at h
        injection h with h
        rw [← h]
      · rw [if_neg hr] at h
        injection h with h
        rw [← h]

theorem sendAll_clients (qs : List QueueId) :
    ∀ b b2 ev, sendAll b qs ev = some b2 → b2.clients = b.clients := by
  induction qs with
  | nil =>
    intro b b2 ev h
    rw [sendAll] at h
    injection h with h
    rw [← h]
  | cons q rest ih =>
    intro b b2 ev h
    rw [sendAll] at h
    rcases hs : sendToQueue b q ev with _ | b1
    · rw [hs] at h
      cases h
    · rw [hs] at h
      exact (ih b1 b2 ev h).trans (sendToQueue_clients b q ev b1 hs)

theorem broadcast_clients (b : Broker) (e : SSEEvent) (b2 : Broker)
    (h : broadcast b e = some b2) : b2.clients = b.clients := by
  rcases hl : b.clients.lookup e.userId with _ | qs
  · simp only [broadcast, hl] at h
    injection h with h
    rw [← h]
  · simp only [broadcast, hl] at h
    exact sendAll_clients qs b b2 _ h

theorem broadcastToAllGo_clients (entries : List (UserId × List QueueId)) :
    ∀ b b2 ty d, broadcastToAllGo b entries ty d = some b2 → b2.clients = b.clients := by
  induction entries with
  | nil =>
    intro b b2 ty d h
    rw [broadcastToAllGo] at h
    injection h with h
    rw [← h]
  | cons e rest ih =>
    intro b b2 ty d h
    obtain ⟨u, qs⟩ := e
    rw [broadcastToAllGo] at h
    rcases hs : sendAll b qs { type := ty, dataRaw := jsonEncode d, userId := u } with _ | b1
    · rw [hs] at h
      cases h
    · rw [hs] at h
      exact (ih b1 b2 ty d h).trans (sendAll_clients qs b b1 _ hs)

theorem register_preserves (b : Broker) (u : UserId) (q : QueueId)
    (h : clientsNonempty b) : clientsNonempty (register b u q) := by
  rcases hl : b.clients.lookup u with _ | qs
  · intro e he
    simp only [register, hl] at he
    rcases List.mem_append.mp he with he | he
    · exact h e he
    · rcases List.mem_singleton.mp he with rfl
      simp
  · intro e he
    simp only [register, hl] at he
    rcases List.mem_map.mp he with ⟨e0, he0, hfe⟩
    by_cases hu : e0.1 = u
    · rw [if_pos hu] at hfe
      rw [← hfe]
      by_cases hqm : q ∈ e0.2
      · simp only [if_pos hqm]
        exact h e0 he0
      · simp only [if_neg hqm]
        simp
    · rw [if_neg hu] at hfe
      rw [← hfe]
      exact h e0 he0

theorem unregister_preserves (b : Broker) (u : UserId) (q : QueueId) (b2 : Broker)
    (h : unregister b u q = some b2) (hinv : clientsNonempty b) : clientsNonempty b2 := by
  rcases hl : b.clients.lookup u with _ | qs
  · simp only [unregister, hl] at h
    injection h with h
    rw [← h]
    exact hinv
  · simp only [unregister, hl] at h
    have hc := closeChan_clients _ _ _ h
    intro e he
    rw [hc] at he
    by_cases hemp : (qs.erase q).isEmpty
    · rw [if_pos hemp] at he
      exact hinv e (List.mem_filter.mp he).1
    · rw [if_neg hemp] at he
      rcases List.mem_map.mp he with ⟨e0, he0, hfe⟩
      by_cases hu : e0.1 = u
      · rw [if_pos hu] at hfe
        rw [← hfe]
        intro hnil
        apply hemp
        rw [List.isEmpty_iff]
        exact hnil
      · rw [if_neg hu] at hfe
        rw [← hfe]
        exact hinv e0 he0

theorem brokerStep_preserves (b : Broker) (op : BrokerOp) (b2 : Broker)
    (h : brokerStep b op = some b2) (hinv : clientsNonempty b) : clientsNonempty b2 := by
  cases op with
  | connect u q =>
    rw [brokerStep] at h
    by_cases hq : (b.queues.lookup q).isSome
    · rw [if_pos hq] at h
      cases h
    · rw [if_neg hq] at h
      injection h with h
      rw [← h]
      exact register_preserves _ u q hinv
  | unregister u q => exact unregister_preserves b u q b2 h hinv
  | broadcast e =>
    intro e2 he2
    rw [broadcast_clients b e b2 h] at he2
    exact hinv e2 he2
  | broadcastToAll ty d =>
    intro e2 he2
    rw [broadcastToAllGo_clients b.clients b b2 ty d h] at he2
    exact hinv e2 he2

theorem runFold_none (rest : List BrokerOp) :
    List.foldl (fun ob op => ob.bind (fun bb => brokerStep bb op)) none rest = none := by
  induction rest with
  | nil => rfl
  | cons op rest ih =>
    rw [List.foldl_cons]
    exact ih

theorem runBrokerOpsFrom_cons (b : Broker) (op : BrokerOp) (rest : List BrokerOp) :
    runBrokerOpsFrom b (op :: rest)
      = (brokerStep b op).bind (fun b1 => runBrokerOpsFrom b1 rest) := by
  rw [runBrokerOpsFrom, List.foldl_cons]
  rcases hs : brokerStep b op with _ | b1
  · rw [show (some b).bind (fun bb => brokerStep bb op) = none by rw [Option.some_bind, hs]]
    exact runFold_none rest
  · rw [show (some b).bind (fun bb => brokerStep bb op) = some b1 by rw [Option.some_bind, hs]]
    rfl

theorem runBrokerOpsFrom_preserves (ops : List BrokerOp) :
    ∀ b b2, runBrokerOpsFrom b ops = some b2 → clientsNonempty b → clientsNonempty b2 := by
  induction ops with
  | nil =>
    intro b b2 h hinv
    rw [runBrokerOpsFrom, List.foldl_nil] at h
    injection h with h
    rw [← h]
    exact hinv
  | cons op rest ih =>
    intro b b2 h hinv
    rw [runBrokerOpsFrom_cons] at h
    rcases hs : brokerStep b op with _ | b1
    · rw [hs] at h
      cases h
    · rw [hs] at h
      exact ih b1 b2 h (brokerStep_preserves b op b1 hs hinv)

/-- C10: after any trace of connect, unregister, broadcast and
broadcast-to-all operations from a fresh broker that did not panic,
every user id present in the clients registry keeps at least one
registered channel (the entry is deleted with its last channel), and
GetClientCount returns 0 exactly when the user has no entry — no
currently registered client. -/
theorem broker_client_count_zero_iff (ops : List BrokerOp) (b : Broker)
    (h : runBrokerOps ops = some b) :
    (∀ e ∈ b.clients, e.2 ≠ []) ∧
    (∀ u, getClientCount b u = 0 ↔ b.clients.lookup u = none) := by
  have hinv : clientsNonempty b :=
    runBrokerOpsFrom_preserves ops newBroker b h (fun e he => absurd he (List.not_mem_nil e))
  refine ⟨hinv, ?_⟩
  intro u
  rcases hl : b.clients.lookup u with _ | qs
  · simp [getClientCount, hl]
  · have hne : qs ≠ [] := hinv (u, qs) (lookup_mem b.clients u qs hl)
    simp only [getClientCount, hl]
    constructor
    · intro h0
      exact absurd (List.length_eq_zero.mp h0) hne
    · intro hn
      exact absurd hn (Option.some_ne_none qs)

/-- Trace for the C10 witness: user 1 connects and disconnects, user 2
connects and stays. -/
def opsC10 : List BrokerOp := [.connect 1 11, .unregister 1 11, .connect 2 22]

/-- The broker reached by that trace. -/
def bC10 : Broker :=
  { clients := [(2, [22])],
    queues := [(11, { cap := 10, buf := [], closed := true }),
               (22, { cap := 10, buf := [], closed := false })] }

/-- Witness for C10: on the concrete trace, user 1 (whose entry was
deleted with its last channel) has count 0 and no entry, and the
invariant holds for the surviving entry of user 2. -/
theorem broker_client_count_zero_iff_witness :
    (∀ e ∈ bC10.clients, e.2 ≠ []) ∧
    (getClientCount bC10 1 = 0 ↔ bC10.clients.lookup 1 = none) := by
  exact ⟨(broker_client_count_zero_iff opsC10 bC10 (by decide)).1,
    (broker_client_count_zero_iff opsC10 bC10 (by decide)).2 1⟩

/-! ## C9: renderer substitution -/

/-- C9 counterexample: the claim says non-string values are
JSON-encoded before substitution, but the renderer switch maps a nil
value to the empty string while its JSON encoding is the four letters
null — on the template x=(placeholder x) with x bound to nil, the code
and the claimed substitution disagree. -/
theorem renderTemplateString_nil_not_json_cex :
    renderTemplateString "x=\x7b\x7bx\x7d\x7d" [("x", GoVal.vNull)] = "x=" ∧
    renderTemplateStringSpec "x=\x7b\x7bx\x7d\x7d" [("x", GoVal.vNull)] = "x=null" ∧
    renderTemplateString "x=\x7b\x7bx\x7d\x7d" [("x", GoVal.vNull)]
      ≠ renderTemplateStringSpec "x=\x7b\x7bx\x7d\x7d" [("x", GoVal.vNull)] := by
  refine ⟨by decide, by decide, by decide⟩

/-- A template decomposed into literal runs and placeholders. -/
inductive Chunk where
| lit : List Char → Chunk
| ph : String → Chunk

/-- The pattern string the renderer builds for a key: the key wrapped
in double braces. -/
def phPat (k : String) : List Char :=
  '\x7b' :: '\x7b' :: k.toList ++ ['\x7d', '\x7d']

/-- The text of one chunk. -/
def chunkToList : Chunk → List Char
| .lit s => s
| .ph k => phPat k

/-- The text of a chunk list. -/
def chunksToList (cs : List Chunk) : List Char := (cs.map chunkToList).flatten

/-- One-pass semantic substitution: replace each placeholder bound in
the bag by its stringified value, leave unknown placeholders verbatim. -/
def substChunk (vars : List (String × GoVal)) : Chunk → List Char
| .lit s => s
| .ph k =>
  match lookupVar vars k with
  | some v => (stringifyGoVal v).toList
  | none => phPat k

/-- A literal run is benign when it contains no open brace (no
placeholder can start inside it). -/
def litOk (s : List Char) : Prop := ∀ c ∈ s, c ≠ '\x7b'

/-- A key is benign when it contains no brace at all. -/
def keyOk (k : String) : Prop := ∀ c ∈ k.toList, c ≠ '\x7b' ∧ c ≠ '\x7d'

/-- Chunk well-formedness. -/
def chunkOk : Chunk → Prop
| .lit s => litOk s
| .ph k => keyOk k

/-- A value is benign when its stringification contains no open brace
(so later replacement passes cannot rescan it as a placeholder). -/
def valOk (v : GoVal) : Prop := ∀ c ∈ (stringifyGoVal v).toList, c ≠ '\x7b'

theorem phPat_ne_nil (k : String) : phPat k ≠ [] := by simp [phPat]

theorem replaceAllGo_nil (f : Nat) (pat rep : List Char) :
    replaceAllGo f [] pat rep = [] := by
  cases f <;> rfl

theorem replaceAll_nil (pat rep : List Char) : replaceAll [] pat rep = [] := by
  rw [replaceAll]
  by_cases h : pat = []
  · rw [if_pos h]
  · rw [if_neg h]
    exact replaceAllGo_nil 0 pat rep

theorem replaceAllGo_fuel (pat rep : List Char) (hp : pat ≠ []) :
    ∀ f1, ∀ f2, ∀ s : List Char, s.length ≤ f1 → s.length ≤ f2 →
      replaceAllGo f1 s pat rep = replaceAllGo f2 s pat rep := by
  intro f1
  induction f1 generalizing rep with
  | zero =>
    intro f2 s h1 _
    have : s = [] := List.length_eq_zero.mp (Nat.le_zero.mp h1)
    subst this
    rw [replaceAllGo_nil, replaceAllGo_nil]
  | succ g1 ih =>
    intro f2 s h1 h2
    cases s with
    | nil => rw [replaceAllGo_nil, replaceAllGo_nil]
    | cons c rest =>
      cases f2 with
      | zero => exact absurd h2 (by simp)
      | succ g2 =>
        show (if pat.isPrefixOf (c :: rest) then
            rep ++ replaceAllGo g1 ((c :: rest).drop pat.length) pat rep
          else c :: replaceAllGo g1 rest pat rep) = _
        have hpl : 1 ≤ pat.length := by
          cases pat with
          | nil => exact absurd rfl hp
          | cons p ps => simp
        have hd1 : ((c :: rest).drop pat.length).length ≤ g1 := by
          rw [List.length_drop]
          simp only [List.length_cons] at h1 ⊢
          omega
        have hd2 : ((c :: rest).drop pat.length).length ≤ g2 := by
          rw [List.length_drop]
          simp only [List.length_cons] at h2 ⊢
          omega
        have hr1 : rest.length ≤ g1 := by
          simp only [List.length_cons] at h1
          omega
        have hr2 : rest.length ≤ g2 := by
          simp only [List.length_cons] at h2
          omega
        by_cases hpre : pat.isPrefixOf (c :: rest)
        · rw [if_pos hpre]
          show _ = (if pat.isPrefixOf (c :: rest) then
              rep ++ replaceAllGo g2 ((c :: rest).drop pat.length) pat rep
            else c :: replaceAllGo g2 rest pat rep)
          rw [if_pos hpre]
          rw [ih rep g2 _ hd1 hd2]
        · rw [if_neg hpre]
          show _ = (if pat.isPrefixOf (c :: rest) then
              rep ++ replaceAllGo g2 ((c :: rest).drop pat.length) pat rep
            else c :: replaceAllGo g2 rest pat rep)
          rw [if_neg hpre]
          rw [ih rep g2 rest hr1 hr2]

theorem replaceAll_cons (c : Char) (rest pat rep : List Char) (hp : pat ≠ []) :
    replaceAll (c :: rest) pat rep
      = if pat.isPrefixOf (c :: rest) then
          rep ++ replaceAll ((c :: rest).drop pat.length) pat rep
        else c :: replaceAll rest pat rep := by
  rw [replaceAll, if_neg hp]
  show (if pat.isPrefixOf (c :: rest) then
      rep ++ replaceAllGo rest.length ((c :: rest).drop pat.length) pat rep
    else c :: replaceAllGo rest.length rest pat rep) = _
  have hpl : 1 ≤ pat.length := by
    cases pat with
    | nil => exact absurd rfl hp
    | cons p ps => simp
  by_cases hpre : pat.isPrefixOf (c :: rest)
  · rw [if_pos hpre, if_pos hpre]
    rw [replaceAll, if_neg hp]
    congr 1
    apply replaceAllGo_fuel pat rep hp
    · rw [List.length_drop]
      simp only [List.length_cons]
      omega
    · exact Nat.le_refl _
  · rw [if_neg hpre, if_neg hpre]
    rw [replaceAll, if_neg hp]

theorem stringToList_inj (a b : String) (h : a.toList = b.toList) : a = b := by
  cases a
  cases b
  exact congrArg String.mk h

theorem isPrefixOf_false_of_head_ne (pat : List Char) (h c : Char) (xs : List Char)
    (hp : pat.head? = some h) (hc : ¬ c = h) : pat.isPrefixOf (c :: xs) = false := by
  cases pat with
  | nil => cases hp
  | cons p ps =>
    have hph : p = h := by
      injection hp
    subst hph
    have hb : (p == c) = false := beq_eq_false_iff_ne.mpr (fun hh => hc hh.symm)
    show (p == c && ps.isPrefixOf xs) = false
    rw [hb, Bool.false_and]

theorem replaceAll_append_no_open (s t pat rep : List Char) (hp : pat ≠ [])
    (hhead : pat.head? = some '\x7b') (hs : ∀ c ∈ s, c ≠ '\x7b') :
    replaceAll (s ++ t) pat rep = s ++ replaceAll t pat rep := by
  induction s with
  | nil => simp
  | cons c s2 ih =>
    rw [List.cons_append, replaceAll_cons _ _ _ _ hp]
    have hc : ¬ c = '\x7b' := hs c (List.mem_cons_self _ _)
    have hfalse := isPrefixOf_false_of_head_ne pat '\x7b' c (s2 ++ t) hhead hc
    rw [if_neg (by simp [hfalse])]
    rw [List.cons_append]
    rw [ih (fun x hx => hs x (List.mem_cons_of_mem _ hx))]

theorem isPrefixOf_self_append (l : List Char) (t : List Char) :
    l.isPrefixOf (l ++ t) = true := by
  induction l with
  | nil =>
    rw [List.nil_append]
    cases t <;> rfl
  | cons a as ih =>
    show (a == a && as.isPrefixOf (as ++ t)) = true
    rw [beq_self_eq_true, Bool.true_and]
    exact ih

theorem replaceAll_head_match (pat t rep : List Char) (hp : pat ≠ []) :
    replaceAll (pat ++ t) pat rep = rep ++ replaceAll t pat rep := by
  cases pat with
  | nil => exact absurd rfl hp
  | cons p ps =>
    rw [List.cons_append, replaceAll_cons _ _ _ _ hp]
    have hpre : (p :: ps).isPrefixOf (p :: (ps ++ t)) = true :=
      isPrefixOf_self_append (p :: ps) t
    rw [if_pos hpre]
    congr 1
    have hdrop : (p :: (ps ++ t)).drop (p :: ps).length = t := by
      rw [← List.cons_append, List.drop_left]
    rw [hdrop]

theorem key_close_eq (a : List Char) :
    ∀ b u v : List Char, (∀ c ∈ a, c ≠ '\x7d') → (∀ c ∈ b, c ≠ '\x7d') →
      (a ++ '\x7d' :: u).isPrefixOf (b ++ '\x7d' :: v) = true → a = b := by
  induction a with
  | nil =>
    intro b u v _ hb h
    cases b with
    | nil => rfl
    | cons d b2 =>
      exfalso
      rw [List.nil_append, List.cons_append] at h
      have hd : ¬ d = '\x7d' := hb d (List.mem_cons_self _ _)
      rw [isPrefixOf_false_of_head_ne ('\x7d' :: u) '\x7d' d (b2 ++ '\x7d' :: v) rfl hd] at h
      cases h
  | cons c a2 ih =>
    intro b u v ha hb h
    cases b with
    | nil =>
      exfalso
      rw [List.nil_append, List.cons_append] at h
      have hc : ¬ c = '\x7d' := ha c (List.mem_cons_self _ _)
      have h2 : (c :: (a2 ++ '\x7d' :: u)).head? = some c := rfl
      rw [isPrefixOf_false_of_head_ne _ c '\x7d' v h2 (fun hh => hc hh.symm)] at h
      cases h
    | cons d b2 =>
      rw [List.cons_append, List.cons_append] at h
      have h2 : (c == d && (a2 ++ '\x7d' :: u).isPrefixOf (b2 ++ '\x7d' :: v)) = true := h
      obtain ⟨hcd, hrest⟩ := Bool.and_eq_true_iff.mp h2
      have hcd2 : c = d := by simpa using hcd
      subst hcd2
      rw [ih b2 u v (fun x hx => ha x (List.mem_cons_of_mem _ hx))
        (fun x hx => hb x (List.mem_cons_of_mem _ hx)) hrest]

theorem replaceAll_ph_ne (k k2 : String) (t rep : List Char)
    (hk : keyOk k) (hk2 : keyOk k2) (hne : ¬ k2 = k) :
    replaceAll (phPat k2 ++ t) (phPat k) rep = phPat k2 ++ replaceAll t (phPat k) rep := by
  have hshape : phPat k2 ++ t = '\x7b' :: '\x7b' :: (k2.toList ++ '\x7d' :: '\x7d' :: t) := by
    simp [phPat]
  rw [hshape]
  have hstep1 : (phPat k).isPrefixOf
      ('\x7b' :: '\x7b' :: (k2.toList ++ '\x7d' :: '\x7d' :: t)) = false := by
    have hunfold : (phPat k).isPrefixOf ('\x7b' :: '\x7b' :: (k2.toList ++ '\x7d' :: '\x7d' :: t))
        = (('\x7b' : Char) == '\x7b' && (('\x7b' : Char) == '\x7b' &&
            (k.toList ++ ['\x7d', '\x7d']).isPrefixOf (k2.toList ++ '\x7d' :: '\x7d' :: t))) := rfl
    rw [hunfold]
    simp only [beq_self_eq_true, Bool.true_and]
    cases habs : (k.toList ++ ['\x7d', '\x7d']).isPrefixOf (k2.toList ++ '\x7d' :: '\x7d' :: t) with
    | false => rfl
    | true =>
      exfalso
      have heq : k.toList = k2.toList :=
        key_close_eq k.toList k2.toList ['\x7d'] ('\x7d' :: t)
          (fun c hc => (hk c hc).2) (fun c hc => (hk2 c hc).2) habs
      exact hne (stringToList_inj k2 k heq.symm)
  rw [replaceAll_cons _ _ _ _ (phPat_ne_nil k), if_neg (by rw [hstep1]; exact Bool.false_ne_true)]
  have hstep2 : (phPat k).isPrefixOf ('\x7b' :: (k2.toList ++ '\x7d' :: '\x7d' :: t)) = false := by
    have hunfold : (phPat k).isPrefixOf ('\x7b' :: (k2.toList ++ '\x7d' :: '\x7d' :: t))
        = (('\x7b' : Char) == '\x7b' &&
            ('\x7b' :: (k.toList ++ ['\x7d', '\x7d'])).isPrefixOf
              (k2.toList ++ '\x7d' :: '\x7d' :: t)) := rfl
    rw [hunfold]
    simp only [beq_self_eq_true, Bool.true_and]
    cases hk2l : k2.toList with
    | nil =>
      rw [List.nil_append]
      exact isPrefixOf_false_of_head_ne ('\x7b' :: (k.toList ++ ['\x7d', '\x7d'])) '\x7b' '\x7d'
        ('\x7d' :: t) rfl (by decide)
    | cons d k2rest =>
      have hd : ¬ d = '\x7b' := (hk2 d (by rw [hk2l]; exact List.mem_cons_self _ _)).1
      exact isPrefixOf_false_of_head_ne ('\x7b' :: (k.toList ++ ['\x7d', '\x7d'])) '\x7b' d
        (k2rest ++ '\x7d' :: '\x7d' :: t) rfl hd
  rw [replaceAll_cons _ _ _ _ (phPat_ne_nil k), if_neg (by rw [hstep2]; exact Bool.false_ne_true)]
  have hsplit : k2.toList ++ '\x7d' :: '\x7d' :: t = (k2.toList ++ ['\x7d', '\x7d']) ++ t := by
    simp
  rw [hsplit]
  have hbr : ∀ c ∈ (k2.toList ++ ['\x7d', '\x7d']), c ≠ '\x7b' := by
    intro c hc
    rcases List.mem_append.mp hc with hc | hc
    · exact (hk2 c hc).1
    · have hcc : c = '\x7d' := by simpa using hc
      rw [hcc]
      decide
  rw [replaceAll_append_no_open (k2.toList ++ ['\x7d', '\x7d']) t (phPat k) rep
    (phPat_ne_nil k) rfl hbr]
  simp [phPat]

/-- Effect of one replacement pass on one chunk: the placeholder bound
to the processed key becomes literal replacement text, everything else
is untouched. -/
def replaceChunkKey (k : String) (rep : List Char) : Chunk → Chunk
| .lit s => .lit s
| .ph k2 => if k2 = k then .lit rep else .ph k2

theorem replaceChunkKey_ok (k : String) (rep : List Char) (hrep : ∀ c ∈ rep, c ≠ '\x7b') :
    ∀ c, chunkOk c → chunkOk (replaceChunkKey k rep c) := by
  intro c hc
  cases c with
  | lit s => exact hc
  | ph k2 =>
    by_cases h : k2 = k
    · simp only [replaceChunkKey, if_pos h]
      exact hrep
    · simp only [replaceChunkKey, if_neg h]
      exact hc

theorem replaceAll_chunks (chunks : List Chunk) (k : String) (rep : List Char)
    (hch : ∀ c ∈ chunks, chunkOk c) (hk : keyOk k) :
    replaceAll (chunksToList chunks) (phPat k) rep
      = chunksToList (chunks.map (replaceChunkKey k rep)) := by
  induction chunks with
  | nil =>
    rw [show chunksToList [] = [] from rfl, replaceAll_nil]
    rfl
  | cons c cs ih =>
    have hcs : ∀ x ∈ cs, chunkOk x := fun x hx => hch x (List.mem_cons_of_mem _ hx)
    have hc0 : chunkOk c := hch c (List.mem_cons_self _ _)
    have hhd : chunksToList (c :: cs) = chunkToList c ++ chunksToList cs := by
      simp [chunksToList]
    rw [hhd]
    cases c with
    | lit s =>
      rw [show chunkToList (Chunk.lit s) = s from rfl]
      rw [replaceAll_append_no_open s _ _ _ (phPat_ne_nil k) rfl hc0]
      rw [ih hcs]
      simp [chunksToList, chunkToList, replaceChunkKey]
    | ph k2 =>
      by_cases hkk : k2 = k
      · subst hkk
        rw [show chunkToList (Chunk.ph k2) = phPat k2 from rfl]
        rw [replaceAll_head_match _ _ _ (phPat_ne_nil k2)]
        rw [ih hcs]
        simp [chunksToList, chunkToList, replaceChunkKey]
      · rw [show chunkToList (Chunk.ph k2) = phPat k2 from rfl]
        rw [replaceAll_ph_ne k k2 _ _ hk hc0 hkk]
        rw [ih hcs]
        simp [chunksToList, chunkToList, replaceChunkKey, hkk]

theorem renderCore_chunks (vars : List (String × GoVal)) :
    ∀ chunks, (∀ c ∈ chunks, chunkOk c) →
      (∀ kv ∈ vars, keyOk kv.1) → (∀ kv ∈ vars, valOk kv.2) →
      renderTemplateCore (chunksToList chunks) vars
        = chunksToList (vars.foldl
            (fun cs kv => cs.map (replaceChunkKey kv.1 (stringifyGoVal kv.2).toList)) chunks) := by
  induction vars with
  | nil =>
    intro chunks _ _ _
    rfl
  | cons kv vs ih =>
    intro chunks hch hkeys hvals
    have hk : keyOk kv.1 := hkeys kv (List.mem_cons_self _ _)
    have hv : valOk kv.2 := hvals kv (List.mem_cons_self _ _)
    have step : renderTemplateCore (chunksToList chunks) (kv :: vs)
        = renderTemplateCore
            (replaceAll (chunksToList chunks) (phPat kv.1) (stringifyGoVal kv.2).toList) vs := rfl
    rw [step]
    rw [replaceAll_chunks chunks kv.1 _ hch hk]
    rw [ih (chunks.map (replaceChunkKey kv.1 (stringifyGoVal kv.2).toList))
      (fun c hc => by
        rcases List.mem_map.mp hc with ⟨c0, hc0, rfl⟩
        exact replaceChunkKey_ok _ _ hv c0 (hch c0 hc0))
      (fun kv2 h2 => hkeys kv2 (List.mem_cons_of_mem _ h2))
      (fun kv2 h2 => hvals kv2 (List.mem_cons_of_mem _ h2))]
    rfl

/-- The total effect of all passes on one chunk. -/
def applyVars (vars : List (String × GoVal)) (c : Chunk) : Chunk :=
  vars.foldl (fun c kv => replaceChunkKey kv.1 (stringifyGoVal kv.2).toList c) c

theorem foldl_map_replaceChunk (vars : List (String × GoVal)) :
    ∀ chunks : List Chunk,
      vars.foldl (fun cs kv => cs.map (replaceChunkKey kv.1 (stringifyGoVal kv.2).toList)) chunks
        = chunks.map (applyVars vars) := by
  induction vars with
  | nil =>
    intro chunks
    show chunks = chunks.map (applyVars [])
    have h1 : chunks.map (applyVars []) = chunks.map (fun c => c) := rfl
    rw [h1]
    exact (List.map_id' chunks).symm
  | cons kv vs ih =>
    intro chunks
    rw [List.foldl_cons, ih, List.map_map]
    apply List.map_congr_left
    intro c _
    rfl

theorem applyVars_lit (vars : List (String × GoVal)) (s : List Char) :
    applyVars vars (.lit s) = .lit s := by
  induction vars with
  | nil => rfl
  | cons kv vs ih =>
    show applyVars vs (replaceChunkKey kv.1 (stringifyGoVal kv.2).toList (.lit s)) = _
    rw [show replaceChunkKey kv.1 (stringifyGoVal kv.2).toList (Chunk.lit s)
      = Chunk.lit s from rfl]
    exact ih

theorem chunkToList_applyVars (vars : List (String × GoVal)) :
    ∀ c : Chunk, chunkToList (applyVars vars c) = substChunk vars c := by
  induction vars with
  | nil =>
    intro c
    cases c <;> rfl
  | cons kv vs ih =>
    intro c
    cases c with
    | lit s =>
      rw [applyVars_lit]
      rfl
    | ph k2 =>
      by_cases hkk : k2 = kv.1
      · have h1 : applyVars (kv :: vs) (.ph k2) = applyVars vs (.lit (stringifyGoVal kv.2).toList) := by
          show applyVars vs (replaceChunkKey kv.1 (stringifyGoVal kv.2).toList (.ph k2)) = _
          rw [show replaceChunkKey kv.1 (stringifyGoVal kv.2).toList (Chunk.ph k2)
            = Chunk.lit (stringifyGoVal kv.2).toList from by simp [replaceChunkKey, hkk]]
        rw [h1, applyVars_lit]
        show (stringifyGoVal kv.2).toList = substChunk (kv :: vs) (.ph k2)
        simp [substChunk, lookupVar, hkk]
      · have h1 : applyVars (kv :: vs) (.ph k2) = applyVars vs (.ph k2) := by
          show applyVars vs (replaceChunkKey kv.1 (stringifyGoVal kv.2).toList (.ph k2)) = _
          rw [show replaceChunkKey kv.1 (stringifyGoVal kv.2).toList (Chunk.ph k2)
            = Chunk.ph k2 from by simp [replaceChunkKey, hkk]]
        rw [h1, ih]
        have h2 : ¬ kv.1 = k2 := fun h => hkk h.symm
        simp [substChunk, lookupVar, h2]

/-- C9 (amended): for every template decomposed into literal runs and
placeholders (literals and keys free of brace characters) and every
variable bag whose keys are brace-free and whose stringified values
contain no open brace (so that one pass cannot manufacture a
placeholder for a later pass), the renderer replaces each placeholder
whose name is bound in the bag by the stringified value — strings
verbatim, nil as the empty string, booleans and integers in Go default
formatting, composite values JSON-encoded — and leaves every
placeholder with an unbound name verbatim in the output. -/
theorem renderTemplateString_substitutes (chunks : List Chunk) (vars : List (String × GoVal))
    (hch : ∀ c ∈ chunks, chunkOk c)
    (hkeys : ∀ kv ∈ vars, keyOk kv.1)
    (hvals : ∀ kv ∈ vars, valOk kv.2) :
    renderTemplateString (chunksToList chunks).asString vars
      = ((chunks.map (substChunk vars)).flatten).asString := by
  rw [renderTemplateString, List.toList_asString]
  rw [renderCore_chunks vars chunks hch hkeys hvals]
  rw [foldl_map_replaceChunk vars chunks]
  congr 1
  rw [chunksToList, List.map_map]
  congr 1
  apply List.map_congr_left
  intro c _
  exact chunkToList_applyVars vars c

instance chunkOkDec : ∀ c : Chunk, Decidable (chunkOk c) := fun c =>
  match c with
  | .lit s => inferInstanceAs (Decidable (∀ ch ∈ s, ch ≠ '\x7b'))
  | .ph k => inferInstanceAs (Decidable (∀ ch ∈ k.toList, ch ≠ '\x7b' ∧ ch ≠ '\x7d'))

instance keyOkDec : ∀ k : String, Decidable (keyOk k) := fun k =>
  inferInstanceAs (Decidable (∀ ch ∈ k.toList, ch ≠ '\x7b' ∧ ch ≠ '\x7d'))

instance valOkDec : ∀ v : GoVal, Decidable (valOk v) := fun v =>
  inferInstanceAs (Decidable (∀ ch ∈ (stringifyGoVal v).toList, ch ≠ '\x7b'))

/-- Template chunks for the C9 witness. -/
def chunksW : List Chunk := [.lit "To ".toList, .ph "user", .lit ", n=".toList, .ph "missing"]

/-- Variable bag for the C9 witness: one bound string, one bound
integer, and nothing for the placeholder named missing. -/
def varsW : List (String × GoVal) := [("user", .vStr "Ann"), ("n", .vInt 2)]

/-- Witness for the amended C9: on a concrete template, the bound
placeholder is replaced, the unbound one survives verbatim. -/
theorem renderTemplateString_substitutes_witness :
    renderTemplateString (chunksToList chunksW).asString varsW
      = ((chunksW.map (substChunk varsW)).flatten).asString ∧
    renderTemplateString (chunksToList chunksW).asString varsW
      = "To Ann, n=\x7b\x7bmissing\x7d\x7d" := by
  exact ⟨renderTemplateString_substitutes chunksW varsW (by decide) (by decide) (by decide),
    by decide⟩

end NotifySvc
